import Mathlib

/-!
Shallow embedding of `src/scripts/scripts/connectivity_analysis/prairie_connectivity_analysis.py`
(the `PrairieConnectivityQGIS` analysis pipeline) and proofs about it.

Modelling conventions:
  * Python floats are embedded as exact rationals (`ℚ`); real-valued
    quantities that involve a square root (`np.sqrt`) are expressed over `ℝ`
    via `Real.sqrt`, with the squared quantity kept rational so that the
    pipeline itself stays executable.
  * The QGIS host objects (layers, fields, geometries) are reduced to the
    data the pipeline actually reads from them: per feature, whether its
    geometry is empty, the value of the optional area field, the geometry's
    area (m², projected CRS branch of lines 87-89), and the centroid
    coordinates (lines 100-101).  The geographic-CRS approximation branch
    (lines 84-86, 95-98) is not exercised by any claim and is not modelled;
    the projected branch is.
  * `networkx` / `pandas` library calls are embedded by their library
    semantics (documented at each definition).
-/

namespace PrairieConn

/-- One input feature, reduced to what `analyze_layer_connectivity` reads
from a QGIS feature (lines 71-111): emptiness of the geometry, the optional
area-field value (`none` models a NULL attribute, treated as 0 at line 80-81),
the geometry's area in m² (projected CRS, line 88), and the centroid
coordinates (lines 100-101). -/
structure Feature where
  emptyGeom : Bool
  fieldVal : Option ℚ
  geomAreaM2 : ℚ
  cx : ℚ
  cy : ℚ
deriving DecidableEq

/-- The pipeline parameters of `analyze_layer_connectivity` (lines 42-45).
`useAreaField` models `area_field and area_field in layer.fields()`
(line 78) being truthy. -/
structure Params where
  maxDistanceKm : ℚ
  minPrimary : ℚ
  minSecondary : ℚ
  useAreaField : Bool
deriving DecidableEq

/-- The `node_type` column values of lines 119-121. -/
inductive NodeType
  | primary
  | secondary
  | tooSmall
deriving DecidableEq, Inhabited

/-- A row of `patches_df` as built at lines 103-121: `id` is the enumeration
index `i` of `patch_{i}` (line 104), `area` the hectare value of lines 77-89,
`cx`/`cy` the centroid coordinates, `nodeType` the column assigned at
lines 119-121. -/
structure Patch where
  id : ℕ
  area : ℚ
  cx : ℚ
  cy : ℚ
  nodeType : NodeType
deriving DecidableEq, Inhabited

/-- The area in hectares a feature contributes (lines 77-89, projected CRS):
the area field's value with NULL read as 0 when the field is used, otherwise
the geometry area converted from m² to ha. -/
def featureArea (p : Params) (f : Feature) : ℚ :=
  if p.useAreaField then f.fieldVal.getD 0 else f.geomAreaM2 / 10000

/-- The final value of the `node_type` column for a given area: lines 119-121
initialise every row to `'too_small'`, overwrite rows with
`area_ha >= min_secondary_size_ha` to `'secondary'`, then overwrite rows with
`area_ha >= min_primary_size_ha` to `'primary'`; the last write wins. -/
def nodeTypeOf (p : Params) (a : ℚ) : NodeType :=
  if p.minPrimary ≤ a then .primary
  else if p.minSecondary ≤ a then .secondary
  else .tooSmall

/-- The row the loop body of lines 103-111 appends for feature `f` at
enumeration index `i` (with the `node_type` column of lines 119-121
attached, a pure function of the row's area). -/
def mkPatch (p : Params) (i : ℕ) (f : Feature) : Patch :=
  { id := i
    area := featureArea p f
    cx := f.cx
    cy := f.cy
    nodeType := nodeTypeOf p (featureArea p f) }

/-- The feature loop of lines 71-111, `for i, feature in enumerate(...)`,
starting at enumeration index `i`: features with empty geometry are skipped
(lines 74-75) but still advance the index. -/
def extractFrom (p : Params) : ℕ → List Feature → List Patch
  | _, [] => []
  | i, f :: fs =>
      if f.emptyGeom then extractFrom p (i + 1) fs
      else mkPatch p i f :: extractFrom p (i + 1) fs

/-- The rows of `patches_df` as first built (lines 103-121). -/
def extractFeatures (p : Params) (fs : List Feature) : List Patch :=
  extractFrom p 0 fs

/-- The size filter of line 125: keep rows with
`area_ha >= min_secondary_size_ha` (the test reads the area value itself,
never the `node_type` label). -/
def retainedOf (p : Params) (fs : List Feature) : List Patch :=
  (extractFeatures p fs).filter fun pt => decide (p.minSecondary ≤ pt.area)

/-- The two `ValueError`s the pipeline raises: "No valid features found in
layer" (line 114) and "No patches meet minimum size criteria" (line 132). -/
inductive Err
  | noValidFeatures
  | noPatchesMeetCriteria
deriving DecidableEq

/-- Extraction with its two failure modes (lines 113-132): error when the
feature loop produced no rows, otherwise error when the size filter left no
rows, otherwise the retained rows. -/
def extractPatches (p : Params) (fs : List Feature) : Except Err (List Patch) :=
  if (extractFeatures p fs).isEmpty then .error .noValidFeatures
  else if (retainedOf p fs).isEmpty then .error .noPatchesMeetCriteria
  else .ok (retainedOf p fs)

/-- An edge of the network as stored at lines 176-181: the two endpoints as
positions `i < j` into the retained-patch list (the positional indexing of
`patches_df.iloc` / `coords` at lines 145-149 and 168-173), plus the squared
centroid distance in m² (the distance itself is `Real.sqrt d2`). -/
structure Conn where
  i : ℕ
  j : ℕ
  d2 : ℚ
deriving DecidableEq

/-- Endpoint pair of a connection. -/
def Conn.ends (c : Conn) : ℕ × ℕ := (c.i, c.j)

/-- Squared Euclidean distance between two patch centroids, in m²
(`scipy.spatial.distance.cdist` at line 149 computes the Euclidean metric). -/
def dist2 (a b : Patch) : ℚ := (a.cx - b.cx) ^ 2 + (a.cy - b.cy) ^ 2

/-- The Euclidean centroid distance itself, as a real number. -/
noncomputable def distR (a b : Patch) : ℝ := Real.sqrt (dist2 a b)

/-- The edge test of line 172, `distance <= max_distance_m and distance > 0`,
expressed decidably over the squared distance.  `edgeB_iff` proves it
equivalent to the source's test on the real Euclidean distance. -/
def edgeB (maxDm : ℚ) (a b : Patch) : Bool :=
  decide (0 < dist2 a b) && decide (dist2 a b ≤ maxDm ^ 2) && decide (0 ≤ maxDm)

/-- The index pairs visited by the double loop of lines 168-169:
`for i in range(n): for j in range(i+1, n)`. -/
def pairList (n : ℕ) : List (ℕ × ℕ) :=
  (List.range n).flatMap fun i =>
    ((List.range n).filter fun j => decide (i < j)).map fun j => (i, j)

/-- The edge list built by `_build_network` (lines 164-182): for each pair
`i < j` of positions, an edge iff the distance test passes, carrying the
squared distance (the stored `distance_m`, `distance_km` and `weight`
attributes are functions of it and of the endpoint areas, see
`Conn.weight`). -/
def buildNetwork (maxDm : ℚ) (ps : List Patch) : List Conn :=
  (pairList ps.length).filterMap fun ij =>
    if edgeB maxDm (ps.getD ij.1 default) (ps.getD ij.2 default)
    then some ⟨ij.1, ij.2, dist2 (ps.getD ij.1 default) (ps.getD ij.2 default)⟩
    else none

/-- The `weight` attribute of line 180, `np.sqrt(area1 * area2) / distance`,
for an edge of the built network. -/
noncomputable def Conn.weight (ps : List Patch) (c : Conn) : ℝ :=
  Real.sqrt ((ps.getD c.i default).area * (ps.getD c.j default).area)
    / Real.sqrt c.d2

/-- `G.degree(pid)` of networkx (line 218): the number of stored edges
incident to position `k`. -/
def degree (conns : List Conn) (k : ℕ) : ℕ :=
  conns.countP fun c => c.i == k || c.j == k

/-- `networkx.degree_centrality` (line 210): for a graph with at most one
node it returns 1 for every node (`{n: 1 for n in G}` in its source);
otherwise each node's degree times `1 / (n - 1)`. -/
def degreeCentrality (n : ℕ) (deg : ℕ) : ℚ :=
  if n ≤ 1 then 1 else (deg : ℚ) / ((n : ℚ) - 1)

/-- Adjacency test over the bare endpoint pairs of the stored edges: the
graph structure `networkx` traversals see, with no edge attributes. -/
def adjacent (es : List (ℕ × ℕ)) (a b : ℕ) : Bool :=
  es.any fun e => (e.1 == a && e.2 == b) || (e.1 == b && e.2 == a)

/-- Number of walks of length `k` from `i` to `j` in the graph on nodes
`0..n-1` given by the adjacency test.  A walk of minimal length is a simple
path, so these counts determine shortest-path counts. -/
def walkCount (adj : ℕ → ℕ → Bool) (n : ℕ) : ℕ → ℕ → ℕ → ℕ
  | 0, i, j => if i = j then 1 else 0
  | k + 1, i, j =>
      ((List.range n).map fun m => if adj i m then walkCount adj n k m j else 0).sum

/-- Hop-count shortest-path length between `i` and `j` (`none` when `j` is
unreachable from `i`): the least `k < n` with a walk of length `k`; any
reachable pair of the `n`-node graph is reached within `n - 1` hops. -/
def spLen (adj : ℕ → ℕ → Bool) (n i j : ℕ) : Option ℕ :=
  (List.range n).find? fun k => walkCount adj n k i j != 0

/-- Number of shortest paths between `i` and `j` (0 when unreachable). -/
def sigma (adj : ℕ → ℕ → Bool) (n i j : ℕ) : ℕ :=
  match spLen adj n i j with
  | some d => walkCount adj n d i j
  | none => 0

/-- Number of shortest `s`-`t` paths passing through `v`: the product of the
shortest-path counts `s`-`v` and `v`-`t` when the two legs add up to the
shortest `s`-`t` length, else 0. -/
def sigmaThrough (adj : ℕ → ℕ → Bool) (n v s t : ℕ) : ℕ :=
  match spLen adj n s v, spLen adj n v t, spLen adj n s t with
  | some a, some b, some c =>
      if a + b = c then walkCount adj n a s v * walkCount adj n b v t else 0
  | _, _, _ => 0

/-- Pair dependency `σ_st(v) / σ_st` (0 for an unreachable pair). -/
def pairDep (adj : ℕ → ℕ → Bool) (n v s t : ℕ) : ℚ :=
  if sigma adj n s t = 0 then 0
  else (sigmaThrough adj n v s t : ℚ) / (sigma adj n s t : ℚ)

/-- `networkx.betweenness_centrality` with its default arguments (line 211):
shortest paths are unweighted hop-count paths (`weight=None`; the stored
`weight`/`distance_m`/`distance_km` edge attributes play no part), the pair
dependencies are accumulated over ordered pairs of distinct endpoints both
different from `v`, and with `normalized=True` the undirected result is
rescaled by `1 / ((n - 1) * (n - 2))` when `n > 2` (no rescaling otherwise,
where the accumulated value is 0 anyway). -/
def betweennessCentrality (adj : ℕ → ℕ → Bool) (n v : ℕ) : ℚ :=
  let raw : ℚ :=
    (((List.range n).map fun s =>
      (((List.range n).map fun t =>
        if s ≠ t ∧ s ≠ v ∧ t ≠ v then pairDep adj n v s t else 0).sum)).sum)
  if 2 < n then raw / (((n : ℚ) - 1) * ((n : ℚ) - 2)) else raw

/-- Undirected reachability within the `n`-node graph: some walk of length
at most `n` joins `i` to `j`. -/
def reachB (adj : ℕ → ℕ → Bool) (n i j : ℕ) : Bool :=
  (List.range (n + 1)).any fun k => walkCount adj n k i j != 0

/-- `i` is the least-numbered node of its connected component: the chosen
representative when counting components. -/
def isCompRep (adj : ℕ → ℕ → Bool) (n i : ℕ) : Bool :=
  (List.range i).all fun j => !reachB adj n j i

/-- Size of the connected component of `i`. -/
def compSize (adj : ℕ → ℕ → Bool) (n i : ℕ) : ℕ :=
  (List.range n).countP fun j => reachB adj n i j

/-- The metrics dictionary assembled by `_calculate_metrics`
(lines 186-228). -/
structure Metrics where
  totalPatches : ℕ
  totalConnections : ℕ
  networkDensity : ℚ
  primaryNodes : ℕ
  secondaryNodes : ℕ
  numComponents : ℕ
  largestComponentSize : ℕ
  isolatedPatches : ℕ
  avgConnectionsPerPatch : ℚ
  maxConnections : ℕ
  totalAreaHa : ℚ
deriving DecidableEq

/-- `networkx.density` (line 196): 0 when the graph has no edges or at most
one node, otherwise `2 * m / (n * (n - 1))` for an undirected graph. -/
def nxDensity (n m : ℕ) : ℚ :=
  if m = 0 ∨ n ≤ 1 then 0 else 2 * ((m : ℚ) / ((n : ℚ) * ((n : ℚ) - 1)))

/-- `_calculate_metrics` (lines 186-228) over the retained patches and the
stored edges: counts, density, component statistics
(`nx.connected_components`, lines 203-207), and the aggregate connection and
area statistics (lines 221-226). -/
def calcMetrics (ret : List Patch) (conns : List Conn) : Metrics :=
  let n := ret.length
  let adj := adjacent (conns.map Conn.ends)
  let degs := (List.range n).map fun k => degree conns k
  { totalPatches := n
    totalConnections := conns.length
    networkDensity := nxDensity n conns.length
    primaryNodes := ret.countP fun pt => pt.nodeType == .primary
    secondaryNodes := ret.countP fun pt => pt.nodeType == .secondary
    numComponents := (List.range n).countP fun i => isCompRep adj n i
    largestComponentSize :=
      ((List.range n).filterMap fun i =>
        if isCompRep adj n i then some (compSize adj n i) else none).foldr Nat.max 0
    isolatedPatches :=
      (List.range n).countP fun i => isCompRep adj n i && compSize adj n i == 1
    avgConnectionsPerPatch := ((degs.map fun d => (d : ℚ)).sum) / (n : ℚ)
    maxConnections := degs.foldr Nat.max 0
    totalAreaHa := (ret.map Patch.area).sum }

/-- Everything one analysis run leaves behind for the host: the retained
rows of `patches_df`, the edge list of `self.network`, the three metric
columns written back at lines 214-219 (in row order), and the metrics
dictionary returned at line 137. -/
structure AnalysisResult where
  retained : List Patch
  conns : List Conn
  dcs : List ℚ
  bcs : List ℚ
  ncs : List ℕ
  metrics : Metrics
deriving DecidableEq

/-- The successful-run output assembled from the retained rows: the network
of line 135 (`max_distance_km * 1000` metres) and the annotations and
metrics of `_calculate_metrics` (lines 209-228). -/
def mkAnalysis (p : Params) (ret : List Patch) : AnalysisResult :=
  let conns := buildNetwork (1000 * p.maxDistanceKm) ret
  let n := ret.length
  let adj := adjacent (conns.map Conn.ends)
  { retained := ret
    conns := conns
    dcs := (List.range n).map fun k => degreeCentrality n (degree conns k)
    bcs := (List.range n).map fun k => betweennessCentrality adj n k
    ncs := (List.range n).map fun k => degree conns k
    metrics := calcMetrics ret conns }

/-- The full `analyze_layer_connectivity` pipeline (lines 42-137): extract
and filter (with the two `ValueError`s), build the network with
`max_distance_km * 1000` (line 135), compute the per-node annotations
(lines 209-219) and the metrics dictionary. -/
def analyze (p : Params) (fs : List Feature) : Except Err AnalysisResult :=
  match extractPatches p fs with
  | .error e => .error e
  | .ok ret => .ok (mkAnalysis p ret)

/-- The mutable fields of a `PrairieConnectivityQGIS` object that the
analysis reads or writes (`__init__`, lines 37-40): `self.network` and
`self.patches_df`. -/
structure AnalyzerState where
  network : Option (List Conn)
  patchesDf : Option (List Patch)
deriving DecidableEq

/-- `analyze_layer_connectivity` as the method acts on an analyzer object:
it stores the filtered dataframe into `self.patches_df` (line 116 with
lines 119-125), the built graph into `self.network` (line 152), and computes
the result from those stored fields — every field it reads was first
overwritten during the same call. -/
def analyzeWithState (st : AnalyzerState) (p : Params) (fs : List Feature) :
    Except Err (AnalyzerState × AnalysisResult) :=
  match extractPatches p fs with
  | .error e => .error e
  | .ok ret =>
      let st1 : AnalyzerState := { st with patchesDf := some ret }
      let conns := buildNetwork (1000 * p.maxDistanceKm) (st1.patchesDf.getD [])
      let st2 : AnalyzerState := { st1 with network := some conns }
      let ret2 := st2.patchesDf.getD []
      let n := ret2.length
      let adj := adjacent ((st2.network.getD []).map Conn.ends)
      .ok
        (st2,
          { retained := ret2
            conns := st2.network.getD []
            dcs := (List.range n).map fun k => degreeCentrality n (degree (st2.network.getD []) k)
            bcs := (List.range n).map fun k => betweennessCentrality adj n k
            ncs := (List.range n).map fun k => degree (st2.network.getD []) k
            metrics := calcMetrics ret2 (st2.network.getD []) })

/-- Insertion of one element into a sorted list of rationals. -/
def insertSorted (x : ℚ) : List ℚ → List ℚ
  | [] => [x]
  | y :: ys => if x ≤ y then x :: y :: ys else y :: insertSorted x ys

/-- Ascending insertion sort, the value ordering `pandas` quantiles are
computed over. -/
def sortQ : List ℚ → List ℚ
  | [] => []
  | x :: xs => insertSorted x (sortQ xs)

/-- `pandas.Series.quantile(q)` with its default linear interpolation: with
the `n` values sorted ascending as `v_0 ≤ … ≤ v_{n-1}` and `h = (n-1)·q`,
the result is `v_⌊h⌋ + (h - ⌊h⌋) · (v_⌊h⌋₊₁ - v_⌊h⌋)`. -/
def quantile (xs : List ℚ) (q : ℚ) : ℚ :=
  let s := sortQ xs
  if s.isEmpty then 0
  else
    let h : ℚ := ((s.length : ℚ) - 1) * q
    let i : ℕ := h.floor.toNat
    let lo := s.getD i 0
    let hi := s.getD (i + 1) lo
    lo + (h - (i : ℚ)) * (hi - lo)

/-- A row of the annotated `patches_df` as `_create_priority_patches_layer`
reads it (lines 369-417): patch id, `area_ha`, `degree_centrality` and
`num_connections`. -/
structure Row where
  id : ℕ
  area : ℚ
  dc : ℚ
  nc : ℕ
deriving DecidableEq, Inhabited

/-- The hub half of the priority filter (lines 374-375):
`degree_centrality > quantile(0.8)` of the column and
`area_ha > quantile(0.6)` of the column. -/
def hubB (rows : List Row) (r : Row) : Bool :=
  decide (quantile (rows.map Row.dc) (8 / 10) < r.dc) &&
  decide (quantile (rows.map Row.area) (6 / 10) < r.area)

/-- The large-isolated half of the priority filter (lines 376-377):
`num_connections == 0` and `area_ha > quantile(0.7)` of the area column. -/
def isoB (rows : List Row) (r : Row) : Bool :=
  r.nc == 0 && decide (quantile (rows.map Row.area) (7 / 10) < r.area)

/-- The priority-patch selection of lines 373-378: the rows satisfying the
hub condition or the large-isolated condition. -/
def priorityPatches (rows : List Row) : List Row :=
  rows.filter fun r => hubB rows r || isoB rows r

/-- The `priority_type` label of lines 404-408: `"Large Isolated"` when
`num_connections == 0`, else `"Hub"`. -/
def priorityType (r : Row) : String :=
  if r.nc = 0 then "Large Isolated" else "Hub"

/-- The annotated rows `_create_priority_patches_layer` receives after an
analysis run: id, area, degree centrality and connection count per retained
patch, in dataframe order. -/
def rowsOf (res : AnalysisResult) : List Row :=
  (List.range res.retained.length).map fun k =>
    { id := (res.retained.getD k default).id
      area := (res.retained.getD k default).area
      dc := res.dcs.getD k 0
      nc := res.ncs.getD k 0 }

/-- An edge joins positions `a` and `b` of the retained-patch list (the
stored endpoints are normalised with `i < j`, so either orientation may
match). -/
def edgeBetween (conns : List Conn) (a b : ℕ) : Prop :=
  ∃ c ∈ conns, (c.i = a ∧ c.j = b) ∨ (c.i = b ∧ c.j = a)

/-! Concrete inputs used by the closed witness and counterexample theorems
below.  Areas come from geometry (no area field), coordinates are metres in
a projected CRS. -/

/-- A single 1 ha feature at the origin. -/
def exFeature : Feature := ⟨false, none, 10000, 0, 0⟩

/-- A one-feature input collection. -/
def fsOne : List Feature := [exFeature]

/-- A two-feature collection: 1 ha at the origin and 2 ha at x = 1000 m. -/
def fsTwo : List Feature := [⟨false, none, 10000, 0, 0⟩, ⟨false, none, 20000, 1000, 0⟩]

/-- The script's default parameters (lines 27-29): 2 km, 0.5 ha, 0.1 ha. -/
def pStd : Params := ⟨2, 1 / 2, 1 / 10, false⟩

/-- Deliberately non-positive parameters. -/
def pNeg : Params := ⟨-1, -1, -1, false⟩

/-- Degenerate parameters with `minPrimary < minSecondary`. -/
def pDeg : Params := ⟨2, 1 / 10, 1 / 2, false⟩

/-- The patch row the pipeline builds from `exFeature` under `pStd`. -/
def ptOne : Patch := ⟨0, 1, 0, 0, .primary⟩

/-- The full result of `analyze pStd fsTwo`, written out. -/
def resTwo : AnalysisResult :=
  { retained := [⟨0, 1, 0, 0, .primary⟩, ⟨1, 2, 1000, 0, .primary⟩]
    conns := [⟨0, 1, 1000000⟩]
    dcs := [1, 1]
    bcs := [0, 0]
    ncs := [1, 1]
    metrics :=
      { totalPatches := 2
        totalConnections := 1
        networkDensity := 1
        primaryNodes := 2
        secondaryNodes := 0
        numComponents := 1
        largestComponentSize := 2
        isolatedPatches := 0
        avgConnectionsPerPatch := 1
        maxConnections := 1
        totalAreaHa := 3 } }

/-- A connection list with the same endpoints as `resTwo.conns` but a
different stored squared distance. -/
def connsAlt : List Conn := [⟨0, 1, 555⟩]

/-- Rows on which both the hub condition and the large-isolated condition
hold at once: the first row has the top degree centrality yet zero stored
connections, and the largest area. -/
def rowsBoth : List Row := [⟨0, 10, 5, 0⟩, ⟨1, 1, 0, 3⟩]

/-- The first row of `rowsBoth`. -/
def rowBoth : Row := ⟨0, 10, 5, 0⟩

end PrairieConn

attribute [local semireducible] Rat.add Rat.mul Rat.inv Rat.sub

namespace PrairieConn

/-! ### Extraction lemmas -/

lemma nodeType_of_mem_extractFrom {p : Params} {pt : Patch} :
    ∀ {i : ℕ} {fs : List Feature}, pt ∈ extractFrom p i fs →
      pt.nodeType = nodeTypeOf p pt.area := by
  intro i fs
  induction fs generalizing i with
  | nil => simp [extractFrom]
  | cons f fs ih =>
      intro h
      by_cases he : f.emptyGeom
      · exact ih (by simpa [extractFrom, he] using h)
      · rcases (by simpa [extractFrom, he] using h : pt = mkPatch p i f ∨ _) with h | h
        · subst h; rfl
        · exact ih h

lemma exists_extractFrom_iff {p : Params} (Q : ℚ → Prop) :
    ∀ {i : ℕ} {fs : List Feature},
      (∃ pt ∈ extractFrom p i fs, Q pt.area) ↔
        ∃ f ∈ fs, f.emptyGeom = false ∧ Q (featureArea p f) := by
  intro i fs
  induction fs generalizing i with
  | nil => simp [extractFrom]
  | cons f fs ih =>
      by_cases he : f.emptyGeom
      · simpa [extractFrom, he] using @ih (i + 1)
      · simp only [extractFrom, he, if_neg]
        constructor
        · rintro ⟨pt, hpt, hQ⟩
          rcases List.mem_cons.1 hpt with h | h
          · exact ⟨f, by simp, by simp [he], by simpa [h, mkPatch] using hQ⟩
          · rcases (@ih (i + 1)).1 ⟨pt, h, hQ⟩ with ⟨g, hg, hge, hgq⟩
            exact ⟨g, by simp [hg], hge, hgq⟩
        · rintro ⟨g, hg, hge, hgq⟩
          rcases List.mem_cons.1 hg with h | h
          · exact ⟨mkPatch p i f, by simp, by simpa [mkPatch, h] using hgq⟩
          · rcases (@ih (i + 1)).2 ⟨g, h, hge, hgq⟩ with ⟨pt, hpt, hQ⟩
            exact ⟨pt, by simp [hpt], hQ⟩

lemma extractFrom_eq_nil_iff {p : Params} :
    ∀ {i : ℕ} {fs : List Feature},
      extractFrom p i fs = [] ↔ ∀ f ∈ fs, f.emptyGeom = true := by
  intro i fs
  induction fs generalizing i with
  | nil => simp [extractFrom]
  | cons f fs ih =>
      by_cases he : f.emptyGeom
      · simpa [extractFrom, he] using @ih (i + 1)
      · simp [extractFrom, he]

lemma retainedOf_ne_nil_iff {p : Params} {fs : List Feature} :
    retainedOf p fs ≠ [] ↔
      ∃ f ∈ fs, f.emptyGeom = false ∧ p.minSecondary ≤ featureArea p f := by
  rw [← exists_extractFrom_iff (fun a => p.minSecondary ≤ a) (i := 0)]
  unfold retainedOf extractFeatures
  rw [Ne, List.filter_eq_nil_iff]
  push_neg
  simp

lemma forall_retainedOf_area_lt {p : Params} {fs : List Feature}
    (h : retainedOf p fs = []) :
    ∀ f ∈ fs, f.emptyGeom = false → featureArea p f < p.minSecondary := by
  intro f hf hfe
  by_contra hlt
  push_neg at hlt
  exact (retainedOf_ne_nil_iff.2 ⟨f, hf, hfe, hlt⟩) h

lemma extractPatches_eq_ok_iff {p : Params} {fs : List Feature} {l : List Patch} :
    extractPatches p fs = .ok l ↔ retainedOf p fs ≠ [] ∧ l = retainedOf p fs := by
  unfold extractPatches
  by_cases h1 : (extractFeatures p fs).isEmpty
  · have : retainedOf p fs = [] := by
      unfold retainedOf
      rw [List.isEmpty_iff.1 h1]
      rfl
    simp [h1, this]
  · by_cases h2 : (retainedOf p fs).isEmpty
    · simp [h1, h2, List.isEmpty_iff.1 h2]
    · have := (Bool.not_eq_true _).symm ▸ h2
      simp only [h1, h2, if_neg, Bool.false_eq_true, not_false_eq_true, if_false]
      constructor
      · rintro h
        exact ⟨fun hn => h2 (by simp [hn, List.isEmpty_iff]), by
          cases h; rfl⟩
      · rintro ⟨-, rfl⟩; rfl

lemma extractFeatures_eq_nil_iff {p : Params} {fs : List Feature} :
    extractFeatures p fs = [] ↔ ∀ f ∈ fs, f.emptyGeom = true := by
  unfold extractFeatures
  exact extractFrom_eq_nil_iff

lemma extractPatches_isOk_iff {p : Params} {fs : List Feature} :
    (extractPatches p fs).isOk = true ↔
      ∃ f ∈ fs, f.emptyGeom = false ∧ p.minSecondary ≤ featureArea p f := by
  rw [← retainedOf_ne_nil_iff]
  constructor
  · intro h
    cases hE : extractPatches p fs with
    | error e => rw [hE] at h; simp [Except.isOk, Except.toBool] at h
    | ok l => exact (extractPatches_eq_ok_iff.1 hE).1
  · intro h
    rw [(extractPatches_eq_ok_iff (l := retainedOf p fs)).2 ⟨h, rfl⟩]
    rfl

lemma analyze_isOk_eq {p : Params} {fs : List Feature} :
    (analyze p fs).isOk = (extractPatches p fs).isOk := by
  unfold analyze
  cases hE : extractPatches p fs <;> rfl

lemma mem_retainedOf {p : Params} {fs : List Feature} {pt : Patch}
    (h : pt ∈ retainedOf p fs) :
    p.minSecondary ≤ pt.area ∧ pt.nodeType = nodeTypeOf p pt.area := by
  rcases List.mem_filter.1 h with ⟨hmem, hdec⟩
  exact ⟨by simpa using hdec, nodeType_of_mem_extractFrom hmem⟩

/-! ### Claim theorems on extraction and parameter validation -/

/-- Claim C7: extraction fails with the "No valid features" `ValueError`
exactly when every input feature has empty geometry (in particular on empty
input), fails with the "No patches meet minimum size criteria" `ValueError`
exactly when some feature is usable but every usable feature's area is below
`minSecondary`, and succeeds (returning the retained rows) in exactly the
remaining cases. -/
theorem C7_invalid_input_exactly (p : Params) (fs : List Feature) :
    ((extractPatches p fs).isOk = true ↔
      ∃ f ∈ fs, f.emptyGeom = false ∧ p.minSecondary ≤ featureArea p f) ∧
    (extractPatches p fs = .error .noValidFeatures ↔ ∀ f ∈ fs, f.emptyGeom = true) ∧
    (extractPatches p fs = .error .noPatchesMeetCriteria ↔
      (∃ f ∈ fs, f.emptyGeom = false) ∧
        ∀ f ∈ fs, f.emptyGeom = false → featureArea p f < p.minSecondary) := by
  refine ⟨extractPatches_isOk_iff, ?_, ?_⟩
  · by_cases h1 : extractFeatures p fs = []
    · exact iff_of_true (by simp [extractPatches, h1]) (extractFeatures_eq_nil_iff.1 h1)
    · have hnall : ¬ ∀ f ∈ fs, f.emptyGeom = true := fun hall =>
        h1 (extractFeatures_eq_nil_iff.2 hall)
      by_cases h2 : retainedOf p fs = [] <;>
        simp [extractPatches, List.isEmpty_iff, h1, h2, hnall]
  · by_cases h1 : extractFeatures p fs = []
    · have : ¬ ∃ f ∈ fs, f.emptyGeom = false := by
        rintro ⟨f, hf, hfe⟩
        have := extractFeatures_eq_nil_iff.1 h1 f hf
        simp [this] at hfe
      simp [extractPatches, h1, this]
    · have hus : ∃ f ∈ fs, f.emptyGeom = false := by
        by_contra hno
        push_neg at hno
        exact h1 (extractFeatures_eq_nil_iff.2 (by
          intro f hf
          simpa using hno f hf))
      by_cases h2 : retainedOf p fs = []
      · refine iff_of_true ?_ ⟨hus, forall_retainedOf_area_lt h2⟩
        simp [extractPatches, List.isEmpty_iff, h1, h2]
      · rcases retainedOf_ne_nil_iff.1 h2 with ⟨f, hf, hfe, hge⟩
        have : ¬ ∀ g ∈ fs, g.emptyGeom = false → featureArea p g < p.minSecondary :=
          fun hall => absurd hge (not_le.2 (hall f hf hfe))
        simp [extractPatches, List.isEmpty_iff, h1, h2, this]

/-- Claim C1 counterexample: with every parameter non-positive
(`maxDistance = minPrimarySize = minSecondarySize = -1`) the pipeline raises
nothing at all — no `ParameterError` exists in the code — and runs to
completion, returning computed metrics. -/
theorem C1_no_parameter_error_counterexample :
    (analyze pNeg fsOne).isOk = true ∧
      (analyze pNeg fsOne).toOption.map (fun r => r.metrics.totalPatches) = some 1 := by
  constructor <;> decide

/-- Claim C1 amended: the pipeline performs no positivity validation of its
thresholds; even with non-positive `maxDistance`/`minPrimarySize`/
`minSecondarySize` it proceeds into computation, and whether it fails is
decided solely by the `InvalidInputError` conditions on the data (empty or
unusable input, or no patch surviving the size filter). -/
theorem C1_no_fail_fast (p : Params) (fs : List Feature)
    (_hnp : p.maxDistanceKm ≤ 0 ∨ p.minPrimary ≤ 0 ∨ p.minSecondary ≤ 0) :
    (analyze p fs).isOk = true ↔
      ∃ f ∈ fs, f.emptyGeom = false ∧ p.minSecondary ≤ featureArea p f := by
  rw [analyze_isOk_eq]
  exact extractPatches_isOk_iff

/-- Witness for C1: the amended statement at the concrete non-positive
parameters, where the single 1 ha feature survives the (vacuous) filter. -/
theorem C1_no_fail_fast_witness :
    (pNeg.maxDistanceKm ≤ 0 ∨ pNeg.minPrimary ≤ 0 ∨ pNeg.minSecondary ≤ 0) ∧
      ((analyze pNeg fsOne).isOk = true ↔
        ∃ f ∈ fsOne, f.emptyGeom = false ∧ pNeg.minSecondary ≤ featureArea pNeg f) :=
  ⟨by decide, C1_no_fail_fast pNeg fsOne (by decide)⟩

/-- Claim C10: every patch retained by the size filter has
`area ≥ minSecondarySize`, for every input and every parameter combination —
the filter at line 125 tests the area value itself and never reads the
`node_type` label, so this holds even when `minPrimary < minSecondary`. -/
theorem C10_retained_area_ge (p : Params) (fs : List Feature) (pt : Patch)
    (h : pt ∈ retainedOf p fs) : p.minSecondary ≤ pt.area :=
  (mem_retainedOf h).1

/-- Witness for C10 at degenerate parameters `minPrimary = 0.1 <
minSecondary = 0.5`: the 1 ha patch is retained and its area is at least
`minSecondary`. -/
theorem C10_retained_area_ge_witness :
    ptOne ∈ retainedOf pDeg fsOne ∧ pDeg.minSecondary ≤ ptOne.area :=
  ⟨by decide, C10_retained_area_ge pDeg fsOne ptOne (by decide)⟩

/-- Claim C4: every retained patch satisfies the size-tier invariant
exactly — `primary` iff `area ≥ minPrimary`, `secondary` iff
`minSecondary ≤ area < minPrimary`, `too_small` iff `area < minSecondary` —
boundary values included, for all parameter combinations. -/
theorem C4_sizeTier_invariant (p : Params) (fs : List Feature) (pt : Patch)
    (h : pt ∈ retainedOf p fs) :
    (pt.nodeType = .primary ↔ p.minPrimary ≤ pt.area) ∧
    (pt.nodeType = .secondary ↔ p.minSecondary ≤ pt.area ∧ pt.area < p.minPrimary) ∧
    (pt.nodeType = .tooSmall ↔ pt.area < p.minSecondary) := by
  rcases mem_retainedOf h with ⟨hms, hnt⟩
  unfold nodeTypeOf at hnt
  by_cases hP : p.minPrimary ≤ pt.area
  · rw [if_pos hP] at hnt
    refine ⟨by simp [hnt, hP], by simp [hnt, not_lt.2 hP], by simp [hnt, not_lt.2 hms]⟩
  · rw [if_neg hP, if_pos hms] at hnt
    refine ⟨by simp [hnt, hP], by simp [hnt, hms, lt_of_not_le hP],
      by simp [hnt, not_lt.2 hms]⟩

/-- Witness for C4: the invariant at the default parameters, where the 1 ha
patch is retained as `primary`. -/
theorem C4_sizeTier_invariant_witness :
    ptOne ∈ retainedOf pStd fsOne ∧
      ((ptOne.nodeType = .primary ↔ pStd.minPrimary ≤ ptOne.area) ∧
       (ptOne.nodeType = .secondary ↔
         pStd.minSecondary ≤ ptOne.area ∧ ptOne.area < pStd.minPrimary) ∧
       (ptOne.nodeType = .tooSmall ↔ ptOne.area < pStd.minSecondary)) :=
  ⟨by decide, C4_sizeTier_invariant pStd fsOne ptOne (by decide)⟩

/-! ### Graph-construction lemmas -/

lemma mem_pairList {n i j : ℕ} : (i, j) ∈ pairList n ↔ i < j ∧ j < n := by
  unfold pairList
  simp only [List.mem_flatMap, List.mem_map, List.mem_filter, List.mem_range,
    decide_eq_true_eq]
  constructor
  · rintro ⟨a, ha, b, ⟨hb, hab⟩, heq⟩
    injection heq with e1 e2
    subst e1; subst e2
    exact ⟨hab, hb⟩
  · rintro ⟨hij, hjn⟩
    exact ⟨i, lt_trans hij hjn, j, ⟨hjn, hij⟩, rfl⟩

lemma map_ends_filterMap (m : ℚ) (ps : List Patch) :
    ∀ l : List (ℕ × ℕ),
      (l.filterMap fun ij =>
        if edgeB m (ps.getD ij.1 default) (ps.getD ij.2 default)
        then some (⟨ij.1, ij.2, dist2 (ps.getD ij.1 default) (ps.getD ij.2 default)⟩ : Conn)
        else none).map Conn.ends =
        l.filter fun ij => edgeB m (ps.getD ij.1 default) (ps.getD ij.2 default)
  | [] => rfl
  | ij :: l => by
      by_cases h : edgeB m (ps.getD ij.1 default) (ps.getD ij.2 default)
      all_goals
        simp only [List.getD_eq_getElem?_getD] at h
        simp [List.filterMap_cons, List.filter_cons, h, Conn.ends]
        simpa using map_ends_filterMap m ps l

lemma map_ends_buildNetwork (m : ℚ) (ps : List Patch) :
    (buildNetwork m ps).map Conn.ends =
      (pairList ps.length).filter fun ij =>
        edgeB m (ps.getD ij.1 default) (ps.getD ij.2 default) := by
  unfold buildNetwork
  exact map_ends_filterMap m ps _

lemma mem_buildNetwork {m : ℚ} {ps : List Patch} {c : Conn} :
    c ∈ buildNetwork m ps ↔
      c.i < c.j ∧ c.j < ps.length ∧
        edgeB m (ps.getD c.i default) (ps.getD c.j default) = true ∧
        c.d2 = dist2 (ps.getD c.i default) (ps.getD c.j default) := by
  unfold buildNetwork
  rw [List.mem_filterMap]
  constructor
  · rintro ⟨⟨i1, j1⟩, hij, hsome⟩
    by_cases h : edgeB m (ps.getD i1 default) (ps.getD j1 default)
    · rw [if_pos h] at hsome
      cases hsome
      rcases mem_pairList.1 hij with ⟨h1, h2⟩
      exact ⟨h1, h2, h, rfl⟩
    · rw [if_neg h] at hsome
      cases hsome
  · rintro ⟨h1, h2, h3, h4⟩
    refine ⟨(c.i, c.j), mem_pairList.2 ⟨h1, h2⟩, ?_⟩
    rw [if_pos h3]
    cases c
    simp only at h4 ⊢
    rw [h4]

lemma dist2_comm (a b : Patch) : dist2 a b = dist2 b a := by
  unfold dist2; ring

lemma distR_comm (a b : Patch) : distR a b = distR b a := by
  unfold distR; rw [dist2_comm]

lemma edgeB_true_iff {m : ℚ} {a b : Patch} :
    edgeB m a b = true ↔ 0 < distR a b ∧ distR a b ≤ (m : ℝ) := by
  unfold edgeB distR
  simp only [Bool.and_eq_true, decide_eq_true_eq]
  constructor
  · rintro ⟨⟨h1, h2⟩, h3⟩
    refine ⟨Real.sqrt_pos.2 (by exact_mod_cast h1), ?_⟩
    refine Real.sqrt_le_iff.2 ⟨by exact_mod_cast h3, ?_⟩
    exact_mod_cast h2
  · rintro ⟨h1, h2⟩
    rcases Real.sqrt_le_iff.1 h2 with ⟨h3, h4⟩
    have h5 : (0 : ℝ) < (dist2 a b : ℚ) := Real.sqrt_pos.1 h1
    refine ⟨⟨by exact_mod_cast h5, ?_⟩, by exact_mod_cast h3⟩
    exact_mod_cast h4

lemma extractPatches_error_retained_nil {p : Params} {fs : List Feature} {e : Err}
    (h : extractPatches p fs = .error e) : retainedOf p fs = [] := by
  unfold extractPatches at h
  by_cases h1 : (extractFeatures p fs).isEmpty
  · unfold retainedOf
    rw [List.isEmpty_iff.1 h1]
    rfl
  · by_cases h2 : (retainedOf p fs).isEmpty
    · exact List.isEmpty_iff.1 h2
    · rw [if_neg h1, if_neg h2] at h
      cases h

lemma analyze_eq_ok_iff {p : Params} {fs : List Feature} {res : AnalysisResult} :
    analyze p fs = .ok res ↔
      retainedOf p fs ≠ [] ∧ res = mkAnalysis p (retainedOf p fs) := by
  unfold analyze
  cases hE : extractPatches p fs with
  | error e =>
      simp only [reduceCtorEq, false_iff, not_and]
      intro hne
      exact absurd (extractPatches_error_retained_nil hE) hne
  | ok ret =>
      rcases extractPatches_eq_ok_iff.1 hE with ⟨hne, rfl⟩
      simp only [Except.ok.injEq]
      constructor
      · rintro rfl; exact ⟨hne, rfl⟩
      · rintro ⟨-, rfl⟩; rfl

/-- Claim C5: in the built network an edge joins two positions of the
retained-patch list iff they are distinct, in range, and the Euclidean
centroid distance `d` satisfies `0 < d ≤ max_distance_m` (line 172, with
`max_distance_m = 1000 * max_distance_km`); and every stored edge's weight
equals `sqrt(area_i * area_j) / distance` (line 180). -/
theorem C5_edge_condition (p : Params) (fs : List Feature) (res : AnalysisResult)
    (h : analyze p fs = .ok res) (a b : ℕ) :
    (edgeBetween res.conns a b ↔
      a < res.retained.length ∧ b < res.retained.length ∧ a ≠ b ∧
        0 < distR (res.retained.getD a default) (res.retained.getD b default) ∧
        distR (res.retained.getD a default) (res.retained.getD b default) ≤
          ((1000 * p.maxDistanceKm : ℚ) : ℝ)) ∧
    ∀ c ∈ res.conns,
      Conn.weight res.retained c =
        Real.sqrt ((res.retained.getD c.i default).area *
            (res.retained.getD c.j default).area) /
          distR (res.retained.getD c.i default) (res.retained.getD c.j default) := by
  rcases analyze_eq_ok_iff.1 h with ⟨-, rfl⟩
  simp only [mkAnalysis]
  set ret := retainedOf p fs with hret
  constructor
  · unfold edgeBetween
    constructor
    · rintro ⟨c, hc, hor⟩
      rcases mem_buildNetwork.1 hc with ⟨h1, h2, h3, -⟩
      rcases edgeB_true_iff.1 h3 with ⟨hd1, hd2⟩
      rcases hor with ⟨rfl, rfl⟩ | ⟨rfl, rfl⟩
      · exact ⟨lt_trans h1 h2, h2, Nat.ne_of_lt h1, hd1, hd2⟩
      · exact ⟨h2, lt_trans h1 h2, (Nat.ne_of_lt h1).symm,
          distR_comm .. ▸ hd1, distR_comm .. ▸ hd2⟩
    · rintro ⟨ha, hb, hab, hd1, hd2⟩
      rcases Nat.lt_or_ge a b with hlt | hge
      · refine ⟨⟨a, b, dist2 (ret.getD a default) (ret.getD b default)⟩,
          mem_buildNetwork.2 ⟨hlt, hb, edgeB_true_iff.2 ⟨hd1, hd2⟩, rfl⟩, Or.inl ⟨rfl, rfl⟩⟩
      · have hlt : b < a := Nat.lt_of_le_of_ne hge (Ne.symm hab)
        refine ⟨⟨b, a, dist2 (ret.getD b default) (ret.getD a default)⟩,
          mem_buildNetwork.2 ⟨hlt, ha,
            edgeB_true_iff.2 ⟨distR_comm .. ▸ hd1, distR_comm .. ▸ hd2⟩, rfl⟩,
          Or.inr ⟨rfl, rfl⟩⟩
  · intro c hc
    rcases mem_buildNetwork.1 hc with ⟨-, -, -, h4⟩
    unfold Conn.weight distR
    rw [h4]

/-- Witness for C5: the edge condition instantiated on the two-patch run,
whose single edge joins positions 0 and 1 at distance 1000 m. -/
theorem C5_edge_condition_witness :
    analyze pStd fsTwo = .ok resTwo ∧
      ((edgeBetween resTwo.conns 0 1 ↔
        0 < resTwo.retained.length ∧ 1 < resTwo.retained.length ∧ 0 ≠ 1 ∧
          0 < distR (resTwo.retained.getD 0 default) (resTwo.retained.getD 1 default) ∧
          distR (resTwo.retained.getD 0 default) (resTwo.retained.getD 1 default) ≤
            ((1000 * pStd.maxDistanceKm : ℚ) : ℝ)) ∧
      ∀ c ∈ resTwo.conns,
        Conn.weight resTwo.retained c =
          Real.sqrt ((resTwo.retained.getD c.i default).area *
              (resTwo.retained.getD c.j default).area) /
            distR (resTwo.retained.getD c.i default) (resTwo.retained.getD c.j default)) :=
  ⟨rfl, C5_edge_condition pStd fsTwo resTwo rfl 0 1⟩

/-! ### Degree bounds: a node of the built network has at most `n - 1`
incident edges, because the double loop visits each unordered index pair
exactly once. -/

lemma degree_eq_countP_ends (conns : List Conn) (k : ℕ) :
    degree conns k = (conns.map Conn.ends).countP fun e => e.1 == k || e.2 == k := by
  rw [List.countP_map]
  rfl

lemma countP_range_lt (n i : ℕ) :
    (List.range n).countP (fun j => decide (i < j)) = n - (i + 1) := by
  induction n with
  | zero => simp
  | succ n ih =>
      rw [List.range_succ, List.countP_append, ih]
      by_cases h : i < n
      · simp [List.countP_cons, h]
        omega
      · simp [List.countP_cons, h]
        omega

lemma countP_range_eq_and_lt (n i k : ℕ) :
    (List.range n).countP (fun j => (j == k) && decide (i < j)) =
      if i < k ∧ k < n then 1 else 0 := by
  induction n with
  | zero => simp
  | succ n ih =>
      rw [List.range_succ, List.countP_append, ih]
      have hsing : (List.countP (fun j => (j == k) && decide (i < j)) [n]) =
          if n = k ∧ i < n then 1 else 0 := by
        by_cases h1 : n = k <;> by_cases h2 : i < n <;>
          simp [List.countP_cons, h1, h2]
      rw [hsing]
      split_ifs <;> omega

lemma sum_map_indicator_of_lt (c k0 : ℕ) :
    ∀ l : List ℕ, (∀ i ∈ l, i < k0) →
      (l.map fun i => if i = k0 then c else if i < k0 then 1 else 0).sum = l.length
  | [], _ => by simp
  | a :: l, hmem => by
      have ha : a < k0 := hmem a (by simp)
      have hne : a ≠ k0 := by omega
      rw [List.map_cons, List.sum_cons,
        sum_map_indicator_of_lt c k0 l (fun i hi => hmem i (by simp [hi]))]
      simp [hne, ha]
      omega

lemma sum_range_indicator (c k0 : ℕ) :
    ∀ m : ℕ, k0 < m →
      ((List.range m).map fun i => if i = k0 then c else if i < k0 then 1 else 0).sum =
        c + k0
  | 0, h => by cases h
  | m + 1, h => by
      rw [List.range_succ, List.map_append, List.sum_append]
      by_cases hkm : k0 < m
      · rw [sum_range_indicator c k0 m hkm]
        have h1 : m ≠ k0 := by omega
        have h2 : ¬ m < k0 := by omega
        simp [h1, h2]
      · have hkm2 : k0 = m := by omega
        subst hkm2
        rw [sum_map_indicator_of_lt c k0 (List.range k0) (by simp)]
        simp [List.length_range]
        omega

lemma countP_incident_pairList (n k : ℕ) (hk : k < n) :
    (pairList n).countP (fun e => e.1 == k || e.2 == k) = n - 1 := by
  unfold pairList
  rw [List.countP_flatMap]
  have hinner : ∀ i ∈ List.range n,
      (List.countP (fun e => e.1 == k || e.2 == k) ∘ fun i =>
        ((List.range n).filter fun j => decide (i < j)).map fun j => (i, j)) i =
      if i = k then n - (k + 1) else if i < k then 1 else 0 := by
    intro i _
    simp only [Function.comp_apply, List.countP_map, List.countP_filter]
    by_cases hik : i = k
    · subst hik
      rw [if_pos rfl, ← countP_range_lt n i]
      apply List.countP_congr
      intro j _
      simp
    · rw [if_neg hik]
      have hbeq : (i == k) = false := by simpa using hik
      have hc : (List.range n).countP
          (fun a => ((i == k || a == k) && decide (i < a))) =
          (List.range n).countP (fun j => (j == k) && decide (i < j)) := by
        apply List.countP_congr
        intro j _
        simp [hbeq]
      rw [hc, countP_range_eq_and_lt]
      by_cases hik2 : i < k <;> simp [hik2, hk]
  rw [List.map_congr_left hinner, sum_range_indicator (n - (k + 1)) k n hk]
  omega

lemma degree_buildNetwork_le {m : ℚ} {ps : List Patch} {k : ℕ}
    (hk : k < ps.length) :
    degree (buildNetwork m ps) k ≤ ps.length - 1 := by
  rw [degree_eq_countP_ends, map_ends_buildNetwork]
  calc ((pairList ps.length).filter fun ij =>
          edgeB m (ps.getD ij.1 default) (ps.getD ij.2 default)).countP
        (fun e => e.1 == k || e.2 == k)
      ≤ (pairList ps.length).countP (fun e => e.1 == k || e.2 == k) :=
        List.Sublist.countP_le _ (List.filter_sublist _)
    _ = ps.length - 1 := countP_incident_pairList ps.length k hk

lemma getD_map_range {α : Type} {f : ℕ → α} {k n : ℕ} (hk : k < n) (d : α) :
    ((List.range n).map f).getD k d = f k := by
  rw [List.getD_eq_getElem?_getD, List.getElem?_map, List.getElem?_range hk]
  rfl

/-! ### Claim theorems on degree centrality -/

/-- Claim C2 counterexample: a run whose graph has a single node.
`networkx.degree_centrality` returns 1 — not 0 — for every node of a graph
with at most one node, so the pipeline annotates the lone patch with degree
centrality 1, falsifying "degreeCentrality equals 0 when totalNodes ≤ 1". -/
theorem C2_single_node_counterexample :
    (analyze pStd fsOne).toOption.map AnalysisResult.dcs = some [1] ∧ (1 : ℚ) ≠ 0 :=
  ⟨rfl, by norm_num⟩

/-- Claim C2 amended: the pipeline's degree-centrality annotation equals 1
(not 0) when the graph has a single node; for more than one node it equals
`degree / (totalNodes - 1)`, lies in `[0, 1]`, and equals 0 for a node with
no edges. -/
theorem C2_degree_centrality (p : Params) (fs : List Feature)
    (res : AnalysisResult) (h : analyze p fs = .ok res) (k : ℕ)
    (hk : k < res.retained.length) :
    (res.retained.length ≤ 1 → res.dcs.getD k 0 = 1) ∧
    (1 < res.retained.length →
      res.dcs.getD k 0 = (degree res.conns k : ℚ) / ((res.retained.length : ℚ) - 1) ∧
      (degree res.conns k = 0 → res.dcs.getD k 0 = 0)) ∧
    0 ≤ res.dcs.getD k 0 ∧ res.dcs.getD k 0 ≤ 1 := by
  rcases analyze_eq_ok_iff.1 h with ⟨-, rfl⟩
  simp only [mkAnalysis] at hk ⊢
  set ret := retainedOf p fs with hret
  rw [getD_map_range hk]
  unfold degreeCentrality
  by_cases hn : ret.length ≤ 1
  · rw [if_pos hn]
    exact ⟨fun _ => rfl, fun h1 => absurd h1 (not_lt.2 hn), by norm_num, by norm_num⟩
  · rw [if_neg hn]
    push_neg at hn
    have hpos : (0 : ℚ) < (ret.length : ℚ) - 1 := by
      have : (1 : ℚ) < (ret.length : ℚ) := by exact_mod_cast hn
      linarith
    have hdeg : degree (buildNetwork (1000 * p.maxDistanceKm) ret) k ≤ ret.length - 1 :=
      degree_buildNetwork_le hk
    have hdegQ : (degree (buildNetwork (1000 * p.maxDistanceKm) ret) k : ℚ) ≤
        (ret.length : ℚ) - 1 := by
      have h1 : (degree (buildNetwork (1000 * p.maxDistanceKm) ret) k : ℚ) ≤
          ((ret.length - 1 : ℕ) : ℚ) := by exact_mod_cast hdeg
      rwa [Nat.cast_sub (by omega), Nat.cast_one] at h1
    refine ⟨fun h1 => absurd hn (not_lt.2 h1), fun _ => ⟨rfl, fun h0 => by
      rw [h0]; simp⟩, ?_, ?_⟩
    · exact div_nonneg (Nat.cast_nonneg _) (le_of_lt hpos)
    · rw [div_le_one hpos]
      exact hdegQ

/-- Witness for C2: the amended statement instantiated on the two-patch run
at node 0, whose degree centrality is `1 / (2 - 1) = 1`. -/
theorem C2_degree_centrality_witness :
    analyze pStd fsTwo = .ok resTwo ∧ 0 < resTwo.retained.length ∧
      ((resTwo.retained.length ≤ 1 → resTwo.dcs.getD 0 0 = 1) ∧
       (1 < resTwo.retained.length →
         resTwo.dcs.getD 0 0 =
           (degree resTwo.conns 0 : ℚ) / ((resTwo.retained.length : ℚ) - 1) ∧
         (degree resTwo.conns 0 = 0 → resTwo.dcs.getD 0 0 = 0)) ∧
       0 ≤ resTwo.dcs.getD 0 0 ∧ resTwo.dcs.getD 0 0 ≤ 1) :=
  ⟨rfl, by decide, C2_degree_centrality pStd fsTwo resTwo rfl 0 (by decide)⟩

/-! ### Claim theorems on priority classification -/

/-- Claim C6: the priority selection returns exactly the rows satisfying the
hub rule (`degree_centrality` above its 80th percentile and `area_ha` above
its 60th percentile) or the large-isolated rule (no connections and
`area_ha` above its 70th percentile); when no row qualifies the result is
the empty sequence, with no error raised. -/
theorem C6_priority_selection (rows : List Row) (r : Row) :
    (r ∈ priorityPatches rows ↔ r ∈ rows ∧
      ((quantile (rows.map Row.dc) (8 / 10) < r.dc ∧
        quantile (rows.map Row.area) (6 / 10) < r.area) ∨
       (r.nc = 0 ∧ quantile (rows.map Row.area) (7 / 10) < r.area))) ∧
    (priorityPatches rows = [] ↔ ∀ s ∈ rows,
      ¬ ((quantile (rows.map Row.dc) (8 / 10) < s.dc ∧
          quantile (rows.map Row.area) (6 / 10) < s.area) ∨
         (s.nc = 0 ∧ quantile (rows.map Row.area) (7 / 10) < s.area))) := by
  constructor
  · rw [priorityPatches, List.mem_filter]
    simp [hubB, isoB]
  · rw [priorityPatches, List.filter_eq_nil_iff]
    constructor
    · intro h s hs
      have := h s hs
      simpa [hubB, isoB] using this
    · intro h s hs
      have := h s hs
      simpa [hubB, isoB] using this

/-- Claim C3 counterexample: on annotated rows where one patch satisfies
both the hub rule and the large-isolated rule at once, the label assigned
by lines 404-408 is "Large Isolated", not "Hub" — the claimed Hub
precedence fails. -/
theorem C3_label_counterexample :
    (quantile (rowsBoth.map Row.dc) (8 / 10) < rowBoth.dc ∧
      quantile (rowsBoth.map Row.area) (6 / 10) < rowBoth.area) ∧
    (rowBoth.nc = 0 ∧ quantile (rowsBoth.map Row.area) (7 / 10) < rowBoth.area) ∧
    rowBoth ∈ priorityPatches rowsBoth ∧
    priorityType rowBoth = "Large Isolated" ∧ "Large Isolated" ≠ "Hub" := by
  refine ⟨by decide, by decide, by decide, by decide, by decide⟩

/-- Claim C3 amended: when a patch satisfies both the hub condition and the
large-isolated condition, the label assigned in the output is
`"Large Isolated"` — the labelling at lines 404-408 tests
`num_connections == 0` first, so LargeIsolated takes precedence over Hub. -/
theorem C3_label_precedence (rows : List Row) (r : Row)
    (_hhub : quantile (rows.map Row.dc) (8 / 10) < r.dc ∧
      quantile (rows.map Row.area) (6 / 10) < r.area)
    (hiso : r.nc = 0 ∧ quantile (rows.map Row.area) (7 / 10) < r.area) :
    priorityType r = "Large Isolated" := by
  unfold priorityType
  rw [if_pos hiso.1]

/-- Witness for C3: the amended precedence applied to the concrete
both-conditions row. -/
theorem C3_label_precedence_witness :
    ((quantile (rowsBoth.map Row.dc) (8 / 10) < rowBoth.dc ∧
       quantile (rowsBoth.map Row.area) (6 / 10) < rowBoth.area) ∧
     (rowBoth.nc = 0 ∧ quantile (rowsBoth.map Row.area) (7 / 10) < rowBoth.area)) ∧
      priorityType rowBoth = "Large Isolated" :=
  ⟨⟨by decide, by decide⟩,
    C3_label_precedence rowsBoth rowBoth (by decide) (by decide)⟩

/-! ### Claim theorems on betweenness and determinism -/

/-- Claim C8: the pipeline's betweenness annotations are computed by
`betweennessCentrality` — unweighted hop-count shortest paths with the
standard undirected normalisation (its definition embeds the
`networkx.betweenness_centrality` defaults) — applied to the bare endpoint
adjacency: any connection list with the same endpoints (whatever its stored
`weight`/`distance` attributes, which are functions of `d2`) yields the same
annotations, so edge attributes play no part in the shortest-path cost. -/
theorem C8_betweenness_unweighted (p : Params) (fs : List Feature)
    (res : AnalysisResult) (conns' : List Conn)
    (h : analyze p fs = .ok res)
    (hends : res.conns.map Conn.ends = conns'.map Conn.ends) :
    res.bcs = (List.range res.retained.length).map
      (betweennessCentrality (adjacent (conns'.map Conn.ends))
        res.retained.length) := by
  rcases analyze_eq_ok_iff.1 h with ⟨-, rfl⟩
  simp only [mkAnalysis] at hends ⊢
  rw [← hends]

/-- Witness for C8: the two-patch run against a connection list carrying a
different stored squared distance but the same endpoints. -/
theorem C8_betweenness_unweighted_witness :
    analyze pStd fsTwo = .ok resTwo ∧
      resTwo.conns.map Conn.ends = connsAlt.map Conn.ends ∧
      resTwo.bcs = (List.range resTwo.retained.length).map
        (betweennessCentrality (adjacent (connsAlt.map Conn.ends))
          resTwo.retained.length) :=
  ⟨rfl, by decide,
    C8_betweenness_unweighted pStd fsTwo resTwo connsAlt rfl (by decide)⟩

/-- Claim C9: the pipeline is deterministic.  Two runs on the same input and
parameters produce identical results — formalised over the analyzer object's
mutable state: the run's outcome (result and final state) is the same from
any two starting states, because `analyze_layer_connectivity` overwrites
`self.patches_df` and `self.network` before reading them; and the stateful
run computes exactly the pure function `analyze`. -/
theorem C9_deterministic (s₁ s₂ : AnalyzerState) (p : Params) (fs : List Feature) :
    analyzeWithState s₁ p fs = analyzeWithState s₂ p fs ∧
      (analyzeWithState s₁ p fs).map Prod.snd = analyze p fs := by
  cases s₁
  cases s₂
  unfold analyzeWithState analyze
  cases hE : extractPatches p fs <;> simp [Except.map, mkAnalysis]

end PrairieConn
